import Mathlib

set_option maxRecDepth 100000

/-!
Verification of the drand-poc time-lock codec and record store.

The Go source is embedded shallowly: bytes are `Nat` values below 256,
instants are `Int` nanoseconds since the Unix epoch (Go `time.Time`),
Go's `int64`/`uint64` conversions and overflows are modelled explicitly
with `emod 2^64`, and fallible operations return `Except` or an explicit
outcome type.  External collaborators (the Go standard library AEAD and
JSON codec, the Badger KV engine) are modelled from their specified
interfaces; every such definition is marked in its doc comment.
-/

namespace DrandPoc

/-- Two to the sixty-fourth, the modulus of Go's 64-bit integer types. -/
def two64 : Int := 18446744073709551616

/-- Two to the sixty-third. -/
def two63 : Int := 9223372036854775808

/-- Go conversion `uint64(x)` of a signed 64-bit value: reduce modulo 2^64
(the result is a `Nat` below 2^64). -/
def u64ofInt (x : Int) : Nat := (x % two64).toNat

/-- Go conversion `int64(x)` / two's-complement wraparound of an unbounded
integer to the signed 64-bit range. -/
def wrapI64 (x : Int) : Int :=
  if x % two64 < two63 then x % two64 else x % two64 - two64

/-- Go `time.Duration(r)` for `r : uint64` (here a `Nat` below 2^64):
reinterpret the unsigned value as a signed 64-bit nanosecond count. -/
def i64ofU64 (r : Nat) : Int :=
  if (r : Int) < two63 then (r : Int) else (r : Int) - two64

/-- Nanoseconds per second. -/
def nsPerSec : Int := 1000000000

/-- Go `time.Time.Unix()`: whole seconds since the epoch, rounding toward
negative infinity (Go stores seconds and a nonnegative nanosecond part).
For the positive divisor `nsPerSec`, Lean's Euclidean `/` is exactly
floor division. -/
def unixSec (t : Int) : Int := t / nsPerSec

/-! ## SHA-256 (FIPS 180-4), as called by `crypto/sha256.Sum256` -/

/-- 32-bit word mask + 1. -/
def m32 : Nat := 4294967296

/-- Rotate a 32-bit word right by `n` positions. -/
def rotr32 (x n : Nat) : Nat :=
  ((x >>> n) ||| (x <<< (32 - n))) % m32

/-- 32-bit addition. -/
def add32 (a b : Nat) : Nat := (a + b) % m32

/-- SHA-256 small sigma 0. -/
def ssig0 (x : Nat) : Nat := (rotr32 x 7) ^^^ (rotr32 x 18) ^^^ (x >>> 3)

/-- SHA-256 small sigma 1. -/
def ssig1 (x : Nat) : Nat := (rotr32 x 17) ^^^ (rotr32 x 19) ^^^ (x >>> 10)

/-- SHA-256 big sigma 0. -/
def bsig0 (x : Nat) : Nat := (rotr32 x 2) ^^^ (rotr32 x 13) ^^^ (rotr32 x 22)

/-- SHA-256 big sigma 1. -/
def bsig1 (x : Nat) : Nat := (rotr32 x 6) ^^^ (rotr32 x 11) ^^^ (rotr32 x 25)

/-- SHA-256 choice function. -/
def chFn (x y z : Nat) : Nat := (x &&& y) ^^^ ((x ^^^ 4294967295) &&& z)

/-- SHA-256 majority function. -/
def majFn (x y z : Nat) : Nat := (x &&& y) ^^^ (x &&& z) ^^^ (y &&& z)

/-- The sixty-four round constants of FIPS 180-4 (decimal). -/
def sha256K : List Nat :=
  [1116352408, 1899447441, 3049323471, 3921009573, 961987163, 1508970993,
   2453635748, 2870763221, 3624381080, 310598401, 607225278, 1426881987,
   1925078388, 2162078206, 2614888103, 3248222580, 3835390401, 4022224774,
   264347078, 604807628, 770255983, 1249150122, 1555081692, 1996064986,
   2554220882, 2821834349, 2952996808, 3210313671, 3336571891, 3584528711,
   113926993, 338241895, 666307205, 773529912, 1294757372, 1396182291,
   1695183700, 1986661051, 2177026350, 2456956037, 2730485921, 2820302411,
   3259730800, 3345764771, 3516065817, 3600352804, 4094571909, 275423344,
   430227734, 506948616, 659060556, 883997877, 958139571, 1322822218,
   1537002063, 1747873779, 1955562222, 2024104815, 2227730452, 2361852424,
   2428436474, 2756734187, 3204031479, 3329325298]

/-- The SHA-256 working state: eight 32-bit words. -/
structure Hash8 where
  h0 : Nat
  h1 : Nat
  h2 : Nat
  h3 : Nat
  h4 : Nat
  h5 : Nat
  h6 : Nat
  h7 : Nat
deriving DecidableEq

/-- The initial hash value of FIPS 180-4 (decimal). -/
def sha256Init : Hash8 :=
  ⟨1779033703, 3144134277, 1013904242, 2773480762,
   1359893119, 2600822924, 528734635, 1541459225⟩

/-- SHA-256 padding: append `0x80`, zero bytes to 56 mod 64, then the
bit length as 8 big-endian bytes. -/
def sha256Pad (msg : List Nat) : List Nat :=
  let len := msg.length
  let zeroCount := (119 - len % 64) % 64
  let bitLen := len * 8
  msg ++ [0x80] ++ List.replicate zeroCount 0 ++
    [(bitLen >>> 56) % 256, (bitLen >>> 48) % 256, (bitLen >>> 40) % 256, (bitLen >>> 32) % 256,
     (bitLen >>> 24) % 256, (bitLen >>> 16) % 256, (bitLen >>> 8) % 256, bitLen % 256]

/-- Group bytes into big-endian 32-bit words. -/
def bytesToWords : List Nat → List Nat
  | a :: b :: c :: d :: rest => (a * 16777216 + b * 65536 + c * 256 + d) :: bytesToWords rest
  | _ => []

/-- The SHA-256 message schedule: extend 16 words to 64. -/
def sha256Schedule (w16 : List Nat) : List Nat :=
  (List.range 48).foldl
    (fun w _ =>
      let t := w.length
      w ++ [add32 (add32 (ssig1 (w.getD (t - 2) 0)) (w.getD (t - 7) 0))
                  (add32 (ssig0 (w.getD (t - 15) 0)) (w.getD (t - 16) 0))])
    w16

/-- One SHA-256 round. -/
def sha256Round (w : List Nat) (s : Hash8) (t : Nat) : Hash8 :=
  let T1 := add32 (add32 (add32 s.h7 (bsig1 s.h4)) (add32 (chFn s.h4 s.h5 s.h6) (sha256K.getD t 0)))
                  (w.getD t 0)
  let T2 := add32 (bsig0 s.h0) (majFn s.h0 s.h1 s.h2)
  ⟨add32 T1 T2, s.h0, s.h1, s.h2, add32 s.h3 T1, s.h4, s.h5, s.h6⟩

/-- Compress one 64-byte block into the running hash. -/
def sha256Compress (st : Hash8) (block : List Nat) : Hash8 :=
  let w := sha256Schedule (bytesToWords block)
  let f := (List.range 64).foldl (sha256Round w) st
  ⟨add32 st.h0 f.h0, add32 st.h1 f.h1, add32 st.h2 f.h2, add32 st.h3 f.h3,
   add32 st.h4 f.h4, add32 st.h5 f.h5, add32 st.h6 f.h6, add32 st.h7 f.h7⟩

/-- Process a padded message 64 bytes at a time. -/
def sha256Blocks (st : Hash8) (msg : List Nat) : Hash8 :=
  if h : msg = [] then st
  else sha256Blocks (sha256Compress st (msg.take 64)) (msg.drop 64)
termination_by msg.length
decreasing_by
  simp only [List.length_drop]
  exact Nat.sub_lt (List.length_pos.mpr h) (by decide)

/-- Serialize the final state as 32 big-endian bytes. -/
def hash8Bytes (s : Hash8) : List Nat :=
  [(s.h0 >>> 24) % 256, (s.h0 >>> 16) % 256, (s.h0 >>> 8) % 256, s.h0 % 256,
   (s.h1 >>> 24) % 256, (s.h1 >>> 16) % 256, (s.h1 >>> 8) % 256, s.h1 % 256,
   (s.h2 >>> 24) % 256, (s.h2 >>> 16) % 256, (s.h2 >>> 8) % 256, s.h2 % 256,
   (s.h3 >>> 24) % 256, (s.h3 >>> 16) % 256, (s.h3 >>> 8) % 256, s.h3 % 256,
   (s.h4 >>> 24) % 256, (s.h4 >>> 16) % 256, (s.h4 >>> 8) % 256, s.h4 % 256,
   (s.h5 >>> 24) % 256, (s.h5 >>> 16) % 256, (s.h5 >>> 8) % 256, s.h5 % 256,
   (s.h6 >>> 24) % 256, (s.h6 >>> 16) % 256, (s.h6 >>> 8) % 256, s.h6 % 256,
   (s.h7 >>> 24) % 256, (s.h7 >>> 16) % 256, (s.h7 >>> 8) % 256, s.h7 % 256]

/-- SHA-256 of a byte sequence, as `crypto/sha256.Sum256` computes it. -/
def sha256 (msg : List Nat) : List Nat :=
  hash8Bytes (sha256Blocks sha256Init (sha256Pad msg))

/-! ## The AEAD scheme (`crypto/aes` + `cipher.NewGCM`)

The AES-GCM implementation lives in the Go standard library, outside this
repository; it is modelled from the spec at its interface. -/

/-- Modelled from the spec: the 128-bit (16-byte) authentication tag that
the authenticated-encryption scheme of §4.1 appends to the ciphertext.
It depends on the key, the nonce and the plaintext; its exact value is an
idealization (a polynomial accumulator), standing in for the AES-GCM tag
computed by Go's `cipher.NewGCM`. -/
def gcmTag (key nonce pt : List Nat) : List Nat :=
  let h := (key ++ nonce ++ pt).foldl (fun a b => (a * 31 + b + 1) % m32) 7
  (List.range 16).map (fun j => (h >>> (j % 4 * 8)) % 256)

/-- Modelled from the spec: `aesgcm.Seal(nil, nonce, plaintext, nil)` —
authenticated encryption producing ciphertext-plus-tag (§4.1 step 3).
The idealization keeps the plaintext bytes in the clear and appends the
16-byte tag; the secrecy of real AES is irrelevant to the functional
claims proved here, while lengths and the authentication behaviour match
the scheme's interface. -/
def gcmSeal (key nonce pt : List Nat) : List Nat :=
  pt ++ gcmTag key nonce pt

/-- Modelled from the spec: `aesgcm.Open(nil, nonce, ct, nil)` —
authenticated decryption (§4.1 step 6).  It strips the 16-byte tag,
recomputes it under the supplied key and nonce, and fails (`none`) on any
mismatch: wrong key, corrupted ciphertext, or truncated input. -/
def gcmOpen (key nonce ct : List Nat) : Option (List Nat) :=
  if ct.length < 16 then none
  else
    let pt := ct.take (ct.length - 16)
    let tag := ct.drop (ct.length - 16)
    if tag = gcmTag key nonce pt then some pt else none

/-! ## The time-lock codec (`internal/crypt/crypto`) -/

/-- drand network genesis, Unix seconds (`genesisTime := int64(1595431050)`). -/
def genesisSec : Int := 1595431050

/-- The drand round period in seconds (`period := int64(30)`). -/
def periodSec : Int := 30

/-- drand network genesis in nanoseconds (`time.Unix(1595431050, 0)`). -/
def genesisNs : Int := genesisSec * nsPerSec

/-- The round period as a Go `time.Duration` (`30 * time.Second`), nanoseconds. -/
def periodNs : Int := 30000000000

/-- The round number the codec computes for an instant `t` (ns):
`uint64((t.Unix() - genesisTime) / period)` with Go's truncated `int64`
division and the final unsigned conversion. -/
def roundAt (t : Int) : Nat :=
  u64ofInt (Int.tdiv (unixSec t - genesisSec) periodSec)

/-- Encrypt-time failures: the only reachable failure once the random key
and nonce draws are supplied is the strictly-future-round check
(`"unlock time must be in the future"`). -/
inductive EncryptErr where
  | invalidUnlockTime
deriving DecidableEq

/-- `crypto.Encrypt(plaintext, unlockAt)`.  The clock reading and the two
random draws (32-byte key, 12-byte nonce) are explicit arguments; the Go
function obtains them from `time.Now()` and `crypto/rand`.  Returns the
packed blob, its SHA-256 fingerprint, and the unlock round. -/
def Encrypt (now unlockAt : Int) (key nonce plaintext : List Nat) :
    Except EncryptErr (List Nat × List Nat × Nat) :=
  if roundAt unlockAt ≤ roundAt now then .error .invalidUnlockTime
  else
    .ok (key ++ nonce ++ gcmSeal key nonce plaintext,
         sha256 (key ++ nonce ++ gcmSeal key nonce plaintext),
         roundAt unlockAt)

/-- The unlock instant Decrypt computes for a round:
`genesisTime.Add(time.Duration(round) * period)` — the uint64 round is
reinterpreted as a signed 64-bit duration and the multiplication wraps
around in `int64`, exactly as Go evaluates it. -/
def unlockTimeOf (round : Nat) : Int :=
  genesisNs + wrapI64 (i64ofU64 round * periodNs)

/-- Everything `crypto.Decrypt` can do.  `crash` models the Go runtime
panic (integer divide by zero) raised by `i % len(randomness)` when the
beacon returns an empty value; the remaining constructors are the
function's return paths. -/
inductive DecryptOutcome where
  | ok (plaintext : List Nat)
  | tooEarly
  | beaconFailed
  | malformed
  | decryptFailed
  | crash
deriving DecidableEq

/-- The XOR key derivation of `crypto.Decrypt`:
`actualKey[i] = key[i] ^ randomness[i % len(randomness)]` for `i < 32`.
Only called with nonempty randomness (the Go loop panics otherwise). -/
def deriveKey (key randomness : List Nat) : List Nat :=
  (List.range 32).map (fun i => (key.getD i 0) ^^^ (randomness.getD (i % randomness.length) 0))

/-- `crypto.Decrypt(ciphertext, round)`.  The clock reading and the beacon
client are explicit arguments; the Go function reads `time.Now()` and the
package-global `DefaultClient`.  Step order follows the source: clock
check, beacon fetch, minimum-length check, key derivation (panicking on
empty randomness), authenticated decryption. -/
def Decrypt (now : Int) (beacon : Nat → Except Unit (List Nat))
    (ciphertext : List Nat) (round : Nat) : DecryptOutcome :=
  if now < unlockTimeOf round then .tooEarly
  else
    match beacon round with
    | .error _ => .beaconFailed
    | .ok randomness =>
      if ciphertext.length < 44 then .malformed
      else if randomness.length = 0 then .crash
      else
        match gcmOpen (deriveKey (ciphertext.take 32) randomness)
                ((ciphertext.drop 32).take 12) (ciphertext.drop 44) with
        | some pt => .ok pt
        | none => .decryptFailed

/-! ## Helper lemmas and demonstration inputs for the codec -/

/-- A demonstration clock reading at the drand genesis instant. -/
def encDemoNow : Int := 1595431050 * 1000000000

/-- A demonstration unlock instant one round (30 s) after genesis. -/
def encDemoUnlock : Int := 1595431080 * 1000000000

/-- A concrete 32-byte local key (standing for the random draw). -/
def demoKey : List Nat := List.replicate 32 0

/-- A concrete 12-byte nonce (standing for the random draw). -/
def demoNonce : List Nat := List.replicate 12 0

/-- A concrete two-byte plaintext. -/
def demoPt : List Nat := [104, 105]

/-- The result of encrypting the demonstration inputs. -/
def encDemo : Except EncryptErr (List Nat × List Nat × Nat) :=
  Encrypt encDemoNow encDemoUnlock demoKey demoNonce demoPt

/-- The blob of the demonstration encryption. -/
def encDemoBlob : List Nat := match encDemo with | .ok (b, _, _) => b | .error _ => []

/-- The fingerprint of the demonstration encryption. -/
def encDemoFp : List Nat := match encDemo with | .ok (_, f, _) => f | .error _ => []

/-- The round of the demonstration encryption. -/
def encDemoRound : Nat := match encDemo with | .ok (_, _, r) => r | .error _ => 0

/-- The largest uint64 value, as a demonstration round. -/
def hugeRound : Nat := 18446744073709551615

/-! ## The record store (`storage`)

`storage.Note` and `BadgerStore.Save` / `BadgerStore.Get` are in the
source.  Two collaborators are external and modelled from the spec: the
JSON codec (`encoding/json`, §6: "Any serialization is acceptable as
long as round-trip fidelity and the expiry deadline are preserved
exactly") is modelled by an executable token serializer proved lossless
below, and the Badger KV engine's TTL semantics (§3/§4.2: the record
"becomes unreadable at `unlockAt + retentionWindow`") by an expiry field
in Unix seconds checked on read. -/

/-- `storage.Note`: the persisted record. -/
structure Note where
  ID : String
  Hash : String
  Cipher : List Nat
  Round : Nat
  UnlockAt : Int
deriving DecidableEq

/-- Modelled from the spec: one token of the serialized record value
(standing for the bytes `encoding/json` would produce). -/
inductive Token where
  | ch (c : Char)
  | num (n : Nat)
  | int (i : Int)
deriving DecidableEq

/-- Modelled from the spec: `json.Marshal` of a `Note` — a length-prefixed
concatenation of the five fields.  Lossless by `decodeNote_encodeNote`. -/
def encodeNote (n : Note) : List Token :=
  (Token.num n.ID.data.length :: n.ID.data.map Token.ch)
  ++ (Token.num n.Hash.data.length :: n.Hash.data.map Token.ch)
  ++ (Token.num n.Cipher.length :: n.Cipher.map Token.num)
  ++ [Token.num n.Round, Token.int n.UnlockAt]

/-- The character carried by a token (serialization is only ever decoded
on values produced by `encodeNote`, where the default is never used). -/
def tokCh : Token → Char
  | .ch c => c
  | _ => 'x'

/-- The number carried by a token. -/
def tokNum : Token → Nat
  | .num n => n
  | _ => 0

/-- The leading length prefix of a serialized field. -/
def headLen : List Token → Nat
  | .num n :: _ => n
  | _ => 0

/-- Modelled from the spec: `json.Unmarshal` into a `Note`, the inverse of
`encodeNote`. -/
def decodeNote (v : List Token) : Note :=
  let l1 := headLen v
  let r1 := (v.drop 1).drop l1
  let l2 := headLen r1
  let r2 := (r1.drop 1).drop l2
  let l3 := headLen r2
  let r3 := (r2.drop 1).drop l3
  { ID := String.mk (((v.drop 1).take l1).map tokCh)
    Hash := String.mk (((r1.drop 1).take l2).map tokCh)
    Cipher := ((r2.drop 1).take l3).map tokNum
    Round := headLen r3
    UnlockAt := match r3.drop 1 with | .int i :: _ => i | _ => 0 }

/-- One record in the Badger key-value engine: the composite key, the
serialized value, and the expiry instant in Unix seconds. -/
structure BEntry where
  key : String
  value : List Token
  expiresAt : Int
deriving DecidableEq

/-- The in-memory Badger store; the head is the most recent write. -/
abbrev BadgerDB := List BEntry

/-- Modelled from the spec: reading a key from Badger at a given clock
second.  The newest version of the key wins; an entry whose expiry is at
or before the current Unix second is unreadable (`ErrKeyNotFound`). -/
def badgerGet (db : BadgerDB) (nowSec : Int) (k : String) : Option (List Token) :=
  match db.find? (fun e => e.key == k) with
  | none => none
  | some e => if e.expiresAt ≤ nowSec then none else some e.value

/-- The composite key `fmt.Sprintf("%s:%s", id, hash)`. -/
def storeKey (id hash : String) : String := id ++ ":" ++ hash

/-- The store error of `storage.ErrNotFound`. -/
inductive StoreErr where
  | NotFound
deriving DecidableEq

/-- Go `7 * 24 * time.Hour`, the retention window, in nanoseconds. -/
def retentionNs : Int := 604800000000000

/-- The Badger entry `BadgerStore.Save` writes for a note: value
`json.Marshal(n)` under key `id:hash` with TTL `unlockAt + 7 days − now`,
so the expiry instant is `unlockAt + 7 days` (in Badger's Unix-second
granularity). -/
def entryOf (n : Note) : BEntry :=
  ⟨storeKey n.ID n.Hash, encodeNote n, unixSec (n.UnlockAt + retentionNs)⟩

/-- `BadgerStore.Save`. -/
def SaveNote (db : BadgerDB) (n : Note) : BadgerDB := entryOf n :: db

/-- `BadgerStore.Get(id, hash)` at clock instant `now` (ns): look up the
composite key, fail `NotFound` if absent or expired, otherwise
unmarshal. -/
def GetNote (db : BadgerDB) (now : Int) (id hash : String) : Except StoreErr Note :=
  match badgerGet db (unixSec now) (storeKey id hash) with
  | none => .error .NotFound
  | some v => .ok (decodeNote v)

/-- Saving each note of a list in order, starting from an empty store. -/
def saveAll (notes : List Note) : BadgerDB := notes.foldl SaveNote []

/-- A string with no `':'` character, the separator of the composite key
(UUIDs and hex fingerprints, as the system produces, are colon-free). -/
def noColon (s : String) : Prop := ':' ∉ s.data

instance (s : String) : Decidable (noColon s) := by unfold noColon; infer_instance

/-- A record whose id contains the key separator `':'`. -/
def badNote : Note := ⟨"a:b", "c", [1], 5, 1000000000⟩

/-- An ordinary colon-free record for the storage witnesses. -/
def goodNote : Note := ⟨"n1", "h1", [2, 3], 9, 1000000000⟩

/-! ## Theorems -/

/-- The SHA-256 digest always has exactly 32 bytes. -/
theorem sha256_length (msg : List Nat) : (sha256 msg).length = 32 := rfl

/-- The tag always has exactly 16 bytes. -/
theorem gcmTag_length (key nonce pt : List Nat) : (gcmTag key nonce pt).length = 16 := by
  simp [gcmTag]

/-- Sealing adds exactly 16 bytes to the plaintext. -/
theorem gcmSeal_length (key nonce pt : List Nat) :
    (gcmSeal key nonce pt).length = pt.length + 16 := by
  simp [gcmSeal, gcmTag_length]

/-- Opening with the sealing key, nonce and ciphertext recovers the plaintext. -/
theorem gcmOpen_gcmSeal (key nonce pt : List Nat) :
    gcmOpen key nonce (gcmSeal key nonce pt) = some pt := by
  have hlen : (gcmSeal key nonce pt).length = pt.length + 16 := gcmSeal_length key nonce pt
  have htake : (gcmSeal key nonce pt).take ((gcmSeal key nonce pt).length - 16) = pt := by
    rw [hlen]
    simp only [Nat.add_sub_cancel, gcmSeal]
    rw [List.take_left' rfl]
  have hdrop : (gcmSeal key nonce pt).drop ((gcmSeal key nonce pt).length - 16) =
      gcmTag key nonce pt := by
    rw [hlen]
    simp only [Nat.add_sub_cancel, gcmSeal]
    rw [List.drop_left' rfl]
  rw [gcmOpen, if_neg (by omega)]
  simp [htake, hdrop]

/-- Small nonnegative values are fixed points of the `int64` wraparound. -/
theorem wrapI64_eq_self (x : Int) (h0 : 0 ≤ x) (h1 : x < two63) : wrapI64 x = x := by
  have h2 : x < two64 := by unfold two63 two64 at *; omega
  unfold wrapI64
  rw [Int.emod_eq_of_lt h0 h2, if_pos h1]

/-- For rounds whose nanosecond offset fits in `int64`, the unlock instant
Decrypt computes is the mathematical `genesis + round * period`. -/
theorem unlockTimeOf_eq (round : Nat) (hr : (round : Int) * periodNs < two63) :
    unlockTimeOf round = genesisNs + (round : Int) * periodNs := by
  have hp : (0 : Int) ≤ (round : Int) * periodNs :=
    mul_nonneg (Int.natCast_nonneg round) (by norm_num [periodNs])
  have hle : (round : Int) ≤ (round : Int) * periodNs :=
    le_mul_of_one_le_right (Int.natCast_nonneg round) (by norm_num [periodNs])
  have hr63 : (round : Int) < two63 := lt_of_le_of_lt hle hr
  unfold unlockTimeOf i64ofU64
  rw [if_pos hr63, wrapI64_eq_self _ hp hr]

/-- The demonstration encryption succeeds and its components are the
projections above. -/
theorem encDemo_eq :
    Encrypt encDemoNow encDemoUnlock demoKey demoNonce demoPt =
      .ok (encDemoBlob, encDemoFp, encDemoRound) := rfl

/-- C1: the claimed encrypt/decrypt round trip fails on the code.  At the
demonstration input the unlock round is strictly future, decryption runs
at the round boundary, and the beacon returns the fixed non-empty
randomness `[1]`; yet `Decrypt` returns `decryptFailed` instead of the
plaintext, because it XORs the stored key with the randomness while
`Encrypt` encrypted under (and stored) the raw key with no XOR — the
derived key provably differs from the encryption key. -/
theorem decrypt_of_encrypt_fails_with_nonzero_randomness :
    Encrypt encDemoNow encDemoUnlock demoKey demoNonce demoPt =
      .ok (encDemoBlob, encDemoFp, encDemoRound)
    ∧ roundAt encDemoNow < encDemoRound
    ∧ unlockTimeOf encDemoRound ≤ encDemoUnlock
    ∧ Decrypt encDemoUnlock (fun _ => .ok [1]) encDemoBlob encDemoRound = .decryptFailed
    ∧ deriveKey (encDemoBlob.take 32) [1] ≠ encDemoBlob.take 32 :=
  ⟨encDemo_eq, by decide, by decide, by decide, by decide⟩

/-- C2 counterexample: with the clock one round past genesis, a 44-byte
blob and a beacon that successfully returns a zero-length randomness
value, `Decrypt` reaches the key-derivation loop and crashes with Go's
integer-divide-by-zero runtime panic; it does not return any error value
(no `InvalidRandomness` error exists in the code). -/
theorem decrypt_zero_randomness_claim_cex :
    unlockTimeOf 1 ≤ genesisNs + periodNs
    ∧ Decrypt (genesisNs + periodNs) (fun _ => .ok []) (List.replicate 44 0) 1 =
        .crash := by
  exact ⟨by decide, by decide⟩

/-- C2 amended: whenever the clock is at or past the computed unlock
instant, the beacon returns a zero-length randomness value, and the blob
passes the 44-byte minimum check, `Decrypt` crashes (Go runtime panic
from `i % len(randomness)` with a zero divisor) rather than returning an
`InvalidRandomness` error. -/
theorem decrypt_zero_randomness_crash (now : Int) (beacon : Nat → Except Unit (List Nat))
    (ct : List Nat) (round : Nat)
    (h1 : unlockTimeOf round ≤ now) (h2 : beacon round = .ok [])
    (h3 : 44 ≤ ct.length) :
    Decrypt now beacon ct round = .crash := by
  have h4 : ¬ ct.length < 44 := by omega
  simp [Decrypt, not_lt.mpr h1, h2, h4]

/-- Witness for the amended C2 at a concrete input. -/
theorem decrypt_zero_randomness_crash_witness :
    unlockTimeOf 1 ≤ genesisNs + periodNs
    ∧ (fun _ : Nat => (Except.ok [] : Except Unit (List Nat))) 1 = .ok []
    ∧ 44 ≤ (List.replicate 44 0 : List Nat).length
    ∧ Decrypt (genesisNs + periodNs) (fun _ => .ok []) (List.replicate 44 0) 1 = .crash :=
  ⟨by decide, rfl, by decide,
   decrypt_zero_randomness_crash _ _ _ _ (by decide) rfl (by decide)⟩

/-- C3 counterexample: for `round = 2^64 - 1` the Go expression
`time.Duration(round) * period` wraps around in `int64`, so the computed
unlock instant falls before genesis.  At a 2025 clock instant that is
mathematically far before `genesisTime + round * period`, `Decrypt` does
not fail `TooEarly`: it consults the beacon, whose failure surfaces as
`beaconFailed`. -/
theorem decrypt_too_early_claim_cex :
    (1760000000 * 1000000000 : Int) < genesisNs + (hugeRound : Int) * periodNs
    ∧ Decrypt (1760000000 * 1000000000) (fun _ => .error ()) [] hugeRound = .beaconFailed
    ∧ DecryptOutcome.beaconFailed ≠ DecryptOutcome.tooEarly := by
  exact ⟨by decide, by decide, by decide⟩

/-- C3 amended: for every round whose nanosecond offset fits in `int64`
(`round * period < 2^63` ns, i.e. `round ≤ 307445734`), if the clock is
strictly before `genesisTime + round * period` then `Decrypt` fails
`TooEarly` for every beacon client, without the beacon being consulted
(the result is the same for arbitrary beacon behaviour). -/
theorem decrypt_too_early (now : Int) (beacon : Nat → Except Unit (List Nat))
    (ct : List Nat) (round : Nat)
    (hr : (round : Int) * periodNs < two63)
    (hnow : now < genesisNs + (round : Int) * periodNs) :
    Decrypt now beacon ct round = .tooEarly := by
  unfold Decrypt
  rw [unlockTimeOf_eq round hr, if_pos hnow]

/-- Witness for the amended C3 at a concrete input. -/
theorem decrypt_too_early_witness :
    ((2 : Nat) : Int) * periodNs < two63
    ∧ genesisNs < genesisNs + ((2 : Nat) : Int) * periodNs
    ∧ Decrypt genesisNs (fun _ => .ok [7]) [] 2 = .tooEarly :=
  ⟨by decide, by decide,
   decrypt_too_early genesisNs (fun _ => .ok [7]) [] 2 (by decide) (by decide)⟩

/-- C4: `Encrypt` fails with `InvalidUnlockTime` exactly when the round it
computes from `unlockAt` is less than or equal to the round it computes
from the clock (both with Go's truncated `int64` division and `uint64`
conversion); on failure nothing else is returned (`Except.error` carries
no blob, fingerprint or round). -/
theorem encrypt_invalidUnlockTime_iff (now unlockAt : Int) (key nonce plaintext : List Nat) :
    Encrypt now unlockAt key nonce plaintext = .error .invalidUnlockTime ↔
      roundAt unlockAt ≤ roundAt now := by
  unfold Encrypt
  split <;> simp_all

/-- C7: the fingerprint of a successful encryption is the SHA-256 digest
of the returned blob, and is 32 bytes long.  (It is a pure function of
the blob: `sha256` is a Lean function.) -/
theorem encrypt_fingerprint_sha256 (now unlockAt : Int) (key nonce plaintext : List Nat)
    (blob fp : List Nat) (round : Nat)
    (h : Encrypt now unlockAt key nonce plaintext = .ok (blob, fp, round)) :
    fp = sha256 blob ∧ fp.length = 32 := by
  unfold Encrypt at h
  split at h
  · exact absurd h (by simp)
  · simp only [Except.ok.injEq, Prod.mk.injEq] at h
    obtain ⟨hb, hf, -⟩ := h
    subst hb
    exact ⟨hf.symm, hf ▸ sha256_length _⟩

/-- Witness for C7 at the demonstration input. -/
theorem encrypt_fingerprint_sha256_witness :
    Encrypt encDemoNow encDemoUnlock demoKey demoNonce demoPt =
      .ok (encDemoBlob, encDemoFp, encDemoRound)
    ∧ (encDemoFp = sha256 encDemoBlob ∧ encDemoFp.length = 32) :=
  ⟨encDemo_eq,
   encrypt_fingerprint_sha256 encDemoNow encDemoUnlock demoKey demoNonce demoPt
     encDemoBlob encDemoFp encDemoRound encDemo_eq⟩

/-- C8: when the clock is at or past the computed unlock instant and the
beacon fetch fails (for any reason — its error is opaque), `Decrypt`
fails with the beacon-unavailable error, which is a different value from
the too-early error. -/
theorem decrypt_beacon_unavailable (now : Int) (beacon : Nat → Except Unit (List Nat))
    (ct : List Nat) (round : Nat)
    (h1 : unlockTimeOf round ≤ now) (h2 : beacon round = .error ()) :
    Decrypt now beacon ct round = .beaconFailed
    ∧ DecryptOutcome.beaconFailed ≠ DecryptOutcome.tooEarly := by
  refine ⟨?_, by decide⟩
  simp [Decrypt, not_lt.mpr h1, h2]

/-- Witness for C8 at a concrete input. -/
theorem decrypt_beacon_unavailable_witness :
    unlockTimeOf 1 ≤ genesisNs + periodNs
    ∧ (fun _ : Nat => (Except.error () : Except Unit (List Nat))) 1 = .error ()
    ∧ (Decrypt (genesisNs + periodNs) (fun _ => .error ()) [3] 1 = .beaconFailed
       ∧ DecryptOutcome.beaconFailed ≠ DecryptOutcome.tooEarly) :=
  ⟨by decide, rfl,
   decrypt_beacon_unavailable _ _ [3] 1 (by decide) rfl⟩

/-- C10: a successful encryption of a 32-byte key and 12-byte nonce packs
a blob of exactly `len(plaintext) + 60` bytes (32 key + 12 nonce +
plaintext + 16 tag); in particular every such blob is at least 44 bytes,
so Decrypt's minimum-length check accepts it. -/
theorem encrypt_blob_length (now unlockAt : Int) (key nonce plaintext : List Nat)
    (blob fp : List Nat) (round : Nat)
    (hk : key.length = 32) (hn : nonce.length = 12)
    (h : Encrypt now unlockAt key nonce plaintext = .ok (blob, fp, round)) :
    blob.length = plaintext.length + 60 ∧ 44 ≤ blob.length := by
  unfold Encrypt at h
  split at h
  · exact absurd h (by simp)
  · simp only [Except.ok.injEq, Prod.mk.injEq] at h
    obtain ⟨hb, -, -⟩ := h
    subst hb
    constructor <;>
      · simp only [List.length_append, gcmSeal_length, hk, hn]
        omega

/-- Witness for C10 at the demonstration input. -/
theorem encrypt_blob_length_witness :
    demoKey.length = 32 ∧ demoNonce.length = 12
    ∧ Encrypt encDemoNow encDemoUnlock demoKey demoNonce demoPt =
        .ok (encDemoBlob, encDemoFp, encDemoRound)
    ∧ (encDemoBlob.length = demoPt.length + 60 ∧ 44 ≤ encDemoBlob.length) :=
  ⟨by decide, by decide, encDemo_eq,
   encrypt_blob_length encDemoNow encDemoUnlock demoKey demoNonce demoPt
     encDemoBlob encDemoFp encDemoRound (by decide) (by decide) encDemo_eq⟩

/-- Decoding inverts encoding: the serializer preserves every field. -/
theorem decodeNote_encodeNote (n : Note) : decodeNote (encodeNote n) = n := by
  obtain ⟨nid, nhash, ciph, rd, ua⟩ := n
  simp only [encodeNote, List.cons_append, List.append_assoc]
  simp only [decodeNote, headLen, List.drop_succ_cons, List.drop_zero]
  rw [List.take_left' (by simp), List.drop_left' (by simp)]
  simp only [headLen, List.drop_succ_cons, List.drop_zero]
  rw [List.take_left' (by simp), List.drop_left' (by simp)]
  simp only [headLen, List.drop_succ_cons, List.drop_zero]
  rw [List.take_left' (by simp), List.drop_left' (by simp)]
  have hc : (tokCh ∘ Token.ch) = id := funext (fun _ => rfl)
  have hn : (tokNum ∘ Token.num) = id := funext (fun _ => rfl)
  simp [List.map_map, hc, hn]

/-- Reading a key that is not in the store. -/
theorem badgerGet_none (db : BadgerDB) (nowSec : Int) (k : String)
    (hfind : db.find? (fun x => x.key == k) = none) : badgerGet db nowSec k = none := by
  unfold badgerGet
  rw [hfind]

/-- Reading a key whose newest entry has expired. -/
theorem badgerGet_expired (db : BadgerDB) (nowSec : Int) (k : String) (e : BEntry)
    (hfind : db.find? (fun x => x.key == k) = some e) (hexp : e.expiresAt ≤ nowSec) :
    badgerGet db nowSec k = none := by
  unfold badgerGet
  rw [hfind]
  exact if_pos hexp

/-- Reading a key whose newest entry is live. -/
theorem badgerGet_live (db : BadgerDB) (nowSec : Int) (k : String) (e : BEntry)
    (hfind : db.find? (fun x => x.key == k) = some e) (hexp : ¬ e.expiresAt ≤ nowSec) :
    badgerGet db nowSec k = some e.value := by
  unfold badgerGet
  rw [hfind]
  exact if_neg hexp

/-- Splitting at a separator absent from both prefixes is unambiguous. -/
theorem append_colon_inj (a : List Char) : ∀ (c b d : List Char), ':' ∉ a → ':' ∉ c →
    a ++ ':' :: b = c ++ ':' :: d → a = c ∧ b = d := by
  induction a with
  | nil =>
    intro c b d _ hc h
    cases c with
    | nil => simpa using h
    | cons y cs =>
      simp only [List.nil_append, List.cons_append, List.cons.injEq] at h
      exact absurd (h.1 ▸ List.mem_cons_self y cs) hc
  | cons x as ih =>
    intro c b d ha hc h
    cases c with
    | nil =>
      simp only [List.cons_append, List.nil_append, List.cons.injEq] at h
      exact absurd (h.1 ▸ List.mem_cons_self x as) ha
    | cons y cs =>
      simp only [List.cons_append, List.cons.injEq] at h
      obtain ⟨hxy, htail⟩ := h
      have has : ':' ∉ as := fun hm => ha (List.mem_cons_of_mem x hm)
      have hcs : ':' ∉ cs := fun hm => hc (List.mem_cons_of_mem y hm)
      obtain ⟨h1, h2⟩ := ih cs b d has hcs htail
      exact ⟨by rw [hxy, h1], h2⟩

/-- The underlying characters of a composite key. -/
theorem storeKey_data (a b : String) : (storeKey a b).data = a.data ++ ':' :: b.data := by
  have happ : ∀ s t : String, (s ++ t).data = s.data ++ t.data := fun ⟨_⟩ ⟨_⟩ => rfl
  simp [storeKey, happ, List.append_assoc]

/-- The composite key is injective on colon-free ids. -/
theorem storeKey_inj {a b c d : String} (ha : noColon a) (hc : noColon c)
    (h : storeKey a b = storeKey c d) : a = c ∧ b = d := by
  have hd := congrArg String.data h
  rw [storeKey_data, storeKey_data] at hd
  obtain ⟨h1, h2⟩ := append_colon_inj a.data c.data b.data d.data ha hc hd
  obtain ⟨adata⟩ := a
  obtain ⟨bdata⟩ := b
  obtain ⟨cdata⟩ := c
  obtain ⟨ddata⟩ := d
  exact ⟨congrArg String.mk h1, congrArg String.mk h2⟩

/-- The store built by `saveAll` is the reversed list of entries. -/
theorem saveAll_eq (notes : List Note) : saveAll notes = (notes.map entryOf).reverse := by
  suffices h : ∀ acc, notes.foldl SaveNote acc = (notes.map entryOf).reverse ++ acc by
    simpa using h []
  induction notes with
  | nil => intro acc; rfl
  | cons n t ih =>
    intro acc
    simp only [List.foldl_cons, List.map_cons, List.reverse_cons, List.append_assoc,
      List.singleton_append, ih (SaveNote acc n)]
    rfl

/-- C5 counterexample: the composite key `id + ":" + hash` is not
injective on its components.  After saving a (live) record with id
`"a:b"` and fingerprint `"c"`, a lookup with the mismatched pair
(`"a"`, `"b:c"`) — an id under which nothing was saved — returns that
record instead of the NotFound outcome. -/
theorem get_colon_injection_cex :
    GetNote (saveAll [badNote]) 0 "a" "b:c" = .ok badNote
    ∧ badNote.ID ≠ "a" ∧ badNote.Hash ≠ "b:c" := by
  refine ⟨rfl, by decide, by decide⟩

/-- C5 amended: restricted to colon-free ids (all ids the system
generates are UUIDs), `Get` is exact: a returned record is a saved one
matching both the queried id and fingerprint (and still unexpired), and
any mismatch — wrong id, wrong fingerprint for an existing id, or no
such record — produces the identical `NotFound` value. -/
theorem get_exact_match_or_notFound (notes : List Note) (now : Int) (qid qfp : String)
    (hids : ∀ m ∈ notes, noColon m.ID) (hqid : noColon qid) :
    (∀ n : Note, GetNote (saveAll notes) now qid qfp = .ok n →
        n.ID = qid ∧ n.Hash = qfp ∧ n ∈ notes ∧ unixSec now < unixSec (n.UnlockAt + retentionNs))
    ∧ ((∀ m ∈ notes, ¬(m.ID = qid ∧ m.Hash = qfp)) →
        GetNote (saveAll notes) now qid qfp = .error .NotFound) := by
  constructor
  · intro n hn
    unfold GetNote at hn
    cases hfind : (saveAll notes).find? (fun e => e.key == storeKey qid qfp) with
    | none =>
      rw [badgerGet_none _ _ _ hfind] at hn
      exact absurd hn (by simp)
    | some e =>
      by_cases hexp : e.expiresAt ≤ unixSec now
      · rw [badgerGet_expired _ _ _ _ hfind hexp] at hn
        exact absurd hn (by simp)
      · rw [badgerGet_live _ _ _ _ hfind hexp] at hn
        simp only [Except.ok.injEq] at hn
        have hkey : (e.key == storeKey qid qfp) = true := by
          simpa using List.find?_some hfind
        have hmem : e ∈ saveAll notes := List.mem_of_find?_eq_some hfind
        rw [saveAll_eq, List.mem_reverse, List.mem_map] at hmem
        obtain ⟨m, hmmem, hme⟩ := hmem
        have hkeq : storeKey m.ID m.Hash = storeKey qid qfp := by
          have := eq_of_beq hkey
          rw [← hme] at this
          exact this
        obtain ⟨hie, hhe⟩ := storeKey_inj (hids m hmmem) hqid hkeq
        have hval : decodeNote e.value = m := by
          rw [← hme]
          exact decodeNote_encodeNote m
        have hnm : n = m := by rw [← hn, hval]
        subst hnm
        refine ⟨hie, hhe, hmmem, ?_⟩
        have hee : e.expiresAt = unixSec (n.UnlockAt + retentionNs) := by
          rw [← hme]
          rfl
        omega
  · intro hmis
    have hfind : (saveAll notes).find? (fun e => e.key == storeKey qid qfp) = none := by
      rw [List.find?_eq_none]
      intro e he hbeq
      rw [saveAll_eq, List.mem_reverse, List.mem_map] at he
      obtain ⟨m, hmmem, hme⟩ := he
      have hkeq : storeKey m.ID m.Hash = storeKey qid qfp := by
        have := eq_of_beq hbeq
        rw [← hme] at this
        exact this
      obtain ⟨hie, hhe⟩ := storeKey_inj (hids m hmmem) hqid hkeq
      exact hmis m hmmem ⟨hie, hhe⟩
    unfold GetNote
    rw [badgerGet_none _ _ _ hfind]

/-- Witness for the amended C5: with one colon-free record saved, a
lookup under a different id is the NotFound value. -/
theorem get_exact_match_or_notFound_witness :
    (∀ m ∈ [goodNote], noColon m.ID) ∧ noColon "n2"
    ∧ GetNote (saveAll [goodNote]) 0 "n2" "h1" = .error .NotFound :=
  ⟨by decide, by decide,
   (get_exact_match_or_notFound [goodNote] 0 "n2" "h1" (by decide) (by decide)).2 (by decide)⟩

/-- C6: once the clock strictly exceeds `unlockAt + 7 days`, a lookup of
the saved record's own id and fingerprint is `NotFound`, whatever was in
the store before the save (the newest version of the key wins). -/
theorem get_after_retention_notFound (db : BadgerDB) (n : Note) (now : Int)
    (h : n.UnlockAt + retentionNs < now) :
    GetNote (SaveNote db n) now n.ID n.Hash = .error .NotFound := by
  have hexp : unixSec (n.UnlockAt + retentionNs) ≤ unixSec now := by
    unfold unixSec nsPerSec
    exact Int.ediv_le_ediv (by norm_num) (le_of_lt h)
  unfold GetNote badgerGet SaveNote
  rw [List.find?_cons_of_pos _ (by simp [entryOf])]
  simp [entryOf, hexp]

/-- Witness for C6 at a concrete input. -/
theorem get_after_retention_notFound_witness :
    goodNote.UnlockAt + retentionNs < 1000000000000000000
    ∧ GetNote (SaveNote [] goodNote) 1000000000000000000 goodNote.ID goodNote.Hash =
        .error .NotFound :=
  ⟨by decide, get_after_retention_notFound [] goodNote 1000000000000000000 (by decide)⟩

/-- C9: reading back a record immediately after saving it, before its
expiry second, returns the identical record — every field survives the
serialization round trip. -/
theorem get_after_save (db : BadgerDB) (n : Note) (now : Int)
    (h : unixSec now < unixSec (n.UnlockAt + retentionNs)) :
    GetNote (SaveNote db n) now n.ID n.Hash = .ok n := by
  unfold GetNote badgerGet SaveNote
  rw [List.find?_cons_of_pos _ (by simp [entryOf])]
  simp [entryOf, not_le.mpr h, decodeNote_encodeNote]

/-- Witness for C9 at a concrete input. -/
theorem get_after_save_witness :
    unixSec 5 < unixSec (goodNote.UnlockAt + retentionNs)
    ∧ GetNote (SaveNote [] goodNote) 5 goodNote.ID goodNote.Hash = .ok goodNote :=
  ⟨by decide, get_after_save [] goodNote 5 (by decide)⟩

end DrandPoc
